/-
Verification of YT-Transcript-AI against its specification.

Frontend URL handling (ID extraction, time parsing, chapter shortcuts) is
embedded from the TypeScript sources under src/frontend.  The backend
pipeline (rate limiter / quota guard, transcript cache, orchestrator,
punctuation restorer) is not part of the provided sources, so those
components are modelled from the specification text, as marked on each
definition.

Strings are modelled as `List Char`; JavaScript regular-expression
primitives used by the sources (character classes, fixed-length captures,
word boundaries, leftmost-match search) are embedded as explicit scanning
functions over `List Char`.
-/
import Mathlib

set_option maxRecDepth 4000

/-! ## Character classes (from the regex literals in the sources) -/

/-- The character class `[a-zA-Z0-9_-]` used by every video-id pattern in
`src/frontend/middleware.ts` and `src/frontend/src/app/v/page.tsx`. -/
def isIdChar (c : Char) : Bool :=
  (97 ≤ c.toNat && c.toNat ≤ 122) || (65 ≤ c.toNat && c.toNat ≤ 90) ||
  (48 ≤ c.toNat && c.toNat ≤ 57) || c.toNat == 95 || c.toNat == 45

/-- JavaScript regex word character (`\w` = `[A-Za-z0-9_]`), used to decide
the `\b` word boundaries of the last fallback pattern. -/
def isWordChar (c : Char) : Bool :=
  (97 ≤ c.toNat && c.toNat ≤ 122) || (65 ≤ c.toNat && c.toNat ≤ 90) ||
  (48 ≤ c.toNat && c.toNat ≤ 57) || c.toNat == 95

/-- JavaScript regex digit (`\d` = `[0-9]`). -/
def isDigitC (c : Char) : Bool :=
  48 ≤ c.toNat && c.toNat ≤ 57

/-- WhiteSpace and LineTerminator code points removed by JavaScript
`String.prototype.trim`. -/
def isJsSpace (c : Char) : Bool :=
  c.toNat == 9 || c.toNat == 10 || c.toNat == 11 || c.toNat == 12 ||
  c.toNat == 13 || c.toNat == 32 || c.toNat == 160 || c.toNat == 5760 ||
  (8192 ≤ c.toNat && c.toNat ≤ 8202) || c.toNat == 8232 ||
  c.toNat == 8233 || c.toNat == 8239 || c.toNat == 8287 ||
  c.toNat == 12288 || c.toNat == 65279

/-- ASCII fragment of JavaScript `String.prototype.toLowerCase` (the only
fragment the time-parsing patterns can observe, since `\d`, `h`, `m`, `s`
are all ASCII). -/
def jsToLower (c : Char) : Char :=
  if 65 ≤ c.toNat && c.toNat ≤ 90 then Char.ofNat (c.toNat + 32) else c

/-- `String.prototype.trim`. -/
def jsTrim (l : List Char) : List Char :=
  ((l.dropWhile isJsSpace).reverse.dropWhile isJsSpace).reverse

/-- Value of a decimal digit string (JavaScript `parseInt(s, 10)` on an
all-digit string, idealized to exact arithmetic). -/
def digitsToNat (l : List Char) : Nat :=
  l.foldl (fun n c => n * 10 + (c.toNat - 48)) 0

/-! ## Video-id extraction (src/frontend/middleware.ts 4-19,
src/frontend/src/app/v/page.tsx 28-45)

Each regex pattern is a fixed prefix (or a word boundary) followed by the
fixed-length capture `([a-zA-Z0-9_-]{11})`; matching is leftmost search
over the subject string. -/

/-- Attempt the capture group `([a-zA-Z0-9_-]{11})` at the head of `l`:
succeeds iff the next 11 characters exist and lie in the class. -/
def takeId (l : List Char) : Option (List Char) :=
  let v := l.take 11
  if v.length == 11 && v.all isIdChar then some v else none

/-- Match a fixed literal followed by the 11-character capture at the head
of `l` (patterns `youtu\.be/…`, `youtube\.com/shorts/…`, etc.). -/
def litMatchHere (lit : List Char) (l : List Char) : Option (List Char) :=
  if l.take lit.length = lit then takeId (l.drop lit.length) else none

/-- Match the pattern `[?&]v=([a-zA-Z0-9_-]{11})` at the head of `l`. -/
def vParamMatchHere (l : List Char) : Option (List Char) :=
  match l with
  | c :: rest =>
    if (c.toNat == 63 || c.toNat == 38) && rest.take 2 = ['v', '='] then
      takeId (rest.drop 2)
    else none
  | [] => none

/-- First-some combinator (the `for (const re of patterns)` loop and the
regex alternative search both short-circuit on the first success). -/
def orO (a b : Option (List Char)) : Option (List Char) :=
  match a with
  | some x => some x
  | none => b

/-- Leftmost-match search: try the position matcher `f` at every suffix of
the subject, leftmost first (JavaScript `String.prototype.match`). -/
def searchWith (f : List Char → Option (List Char)) : List Char → Option (List Char)
  | [] => f []
  | c :: rest => orO (f (c :: rest)) (searchWith f rest)

/-- Match `\b([a-zA-Z0-9_-]{11})\b` at the head of `l`, where `prev` is the
character just before this position (`none` at the start of the subject). -/
def bMatchHere (prev : Option Char) (l : List Char) : Option (List Char) :=
  match takeId l with
  | none => none
  | some v =>
    let prevW := match prev with | some p => isWordChar p | none => false
    let fstW := match l.head? with | some c => isWordChar c | none => false
    let lstW := match v.getLast? with | some c => isWordChar c | none => false
    let aftW := match (l.drop 11).head? with | some c => isWordChar c | none => false
    if (prevW != fstW) && (lstW != aftW) then some v else none

/-- Leftmost search for the word-boundary pattern, threading the previous
character for `\b` evaluation. -/
def searchB (prev : Option Char) : List Char → Option (List Char)
  | [] => none
  | c :: rest => orO (bMatchHere prev (c :: rest)) (searchB (some c) rest)

/-- `extractIdFromUrlPath` (src/frontend/middleware.ts 4-19): rebuilds a
full URL from `pathname`/`search` and tries the six patterns in order. -/
def extractIdFromUrlPath (pathname search : List Char) : List Char :=
  "https://youtube.com".data ++ pathname ++ search

/-- Result of `extractIdFromUrlPath`. -/
def extractIdFromUrlPathRun (pathname search : List Char) : Option (List Char) :=
  let full := extractIdFromUrlPath pathname search
  orO (searchWith vParamMatchHere full)
  (orO (searchWith (litMatchHere "youtu.be/".data) full)
  (orO (searchWith (litMatchHere "youtube.com/shorts/".data) full)
  (orO (searchWith (litMatchHere "youtube.com/embed/".data) full)
  (orO (searchWith (litMatchHere "youtube.com/live/".data) full)
  (searchB none full)))))

/-- The `/watch` special case in `middleware` (src/frontend/middleware.ts
59-64): accept `v` iff it passes `/^[a-zA-Z0-9_-]{11}$/`. -/
def watchVCheck (v : List Char) : Option (List Char) :=
  if v.length == 11 && v.all isIdChar then some v else none

/-- `extractYouTubeId` (src/frontend/src/app/v/page.tsx 28-45): same
pattern list without the `/live/` pattern, applied to the raw `url`. -/
def extractYouTubeId (url : List Char) : Option (List Char) :=
  orO (searchWith vParamMatchHere url)
  (orO (searchWith (litMatchHere "youtu.be/".data) url)
  (orO (searchWith (litMatchHere "youtube.com/shorts/".data) url)
  (orO (searchWith (litMatchHere "youtube.com/embed/".data) url)
  (searchB none url))))

/-! ## C1: every extracted id is an 11-character token over `[A-Za-z0-9_-]` -/

/-- The shape every extraction result must have: `none`, or exactly 11
characters drawn from the id alphabet. -/
def idShape : Option (List Char) → Prop
  | none => True
  | some v => v.length = 11 ∧ v.all isIdChar = true

lemma takeId_shape {l v : List Char} (h : takeId l = some v) :
    v.length = 11 ∧ v.all isIdChar = true := by
  unfold takeId at h
  by_cases hc : ((l.take 11).length == 11 && (l.take 11).all isIdChar) = true
  · rw [if_pos hc] at h
    cases h
    simp only [Bool.and_eq_true, beq_iff_eq] at hc
    exact hc
  · rw [if_neg hc] at h
    cases h

lemma litMatchHere_shape {lit l v : List Char} (h : litMatchHere lit l = some v) :
    v.length = 11 ∧ v.all isIdChar = true := by
  unfold litMatchHere at h
  split at h
  · exact takeId_shape h
  · cases h

lemma vParamMatchHere_shape {l v : List Char} (h : vParamMatchHere l = some v) :
    v.length = 11 ∧ v.all isIdChar = true := by
  unfold vParamMatchHere at h
  split at h
  · split at h
    · exact takeId_shape h
    · cases h
  · cases h

lemma bMatchHere_shape {prev : Option Char} {l v : List Char}
    (h : bMatchHere prev l = some v) :
    v.length = 11 ∧ v.all isIdChar = true := by
  unfold bMatchHere at h
  split at h
  · cases h
  · next w hw =>
    simp only at h
    split at h
    · cases h
      exact takeId_shape hw
    · cases h

lemma orO_shape {a b : Option (List Char)} (ha : idShape a) (hb : idShape b) :
    idShape (orO a b) := by
  cases a with
  | none => exact hb
  | some v => exact ha

lemma searchWith_shape (f : List Char → Option (List Char))
    (hf : ∀ l v, f l = some v → v.length = 11 ∧ v.all isIdChar = true) :
    ∀ l, idShape (searchWith f l) := by
  intro l
  induction l with
  | nil =>
    unfold searchWith
    cases hz : f [] with
    | none => simp [idShape, hz]
    | some v => simpa [idShape, hz] using hf [] v hz
  | cons c rest ih =>
    unfold searchWith
    refine orO_shape ?_ ih
    cases hz : f (c :: rest) with
    | none => simp [idShape]
    | some v => simpa [idShape] using hf (c :: rest) v hz

lemma searchB_shape : ∀ (prev : Option Char) (l : List Char),
    idShape (searchB prev l) := by
  intro prev l
  induction l generalizing prev with
  | nil => simp [searchB, idShape]
  | cons c rest ih =>
    unfold searchB
    refine orO_shape ?_ (ih (some c))
    cases hz : bMatchHere prev (c :: rest) with
    | none => simp [idShape]
    | some v => simpa [idShape] using bMatchHere_shape hz

/-- C1: Every video identifier the system accepts is an exactly-11-character
token over `[A-Za-z0-9_-]`: `extractIdFromUrlPath` (middleware.ts), the
`/watch` special case in `middleware`, and `extractYouTubeId` (v/page.tsx)
each return either a string of exactly 11 characters from that alphabet or
`null`, so an invalid identifier never reaches later use. -/
theorem c1_video_id_eleven_char_alphabet :
    ∀ pathname search url v : List Char,
      idShape (extractIdFromUrlPathRun pathname search) ∧
      idShape (watchVCheck v) ∧
      idShape (extractYouTubeId url) := by
  intro pathname search url v
  refine ⟨?_, ?_, ?_⟩
  · unfold extractIdFromUrlPathRun
    refine orO_shape (searchWith_shape _ (fun _ _ => vParamMatchHere_shape) _)
      (orO_shape (searchWith_shape _ (fun _ _ => litMatchHere_shape) _)
      (orO_shape (searchWith_shape _ (fun _ _ => litMatchHere_shape) _)
      (orO_shape (searchWith_shape _ (fun _ _ => litMatchHere_shape) _)
      (orO_shape (searchWith_shape _ (fun _ _ => litMatchHere_shape) _)
      (searchB_shape none _)))))
  · unfold watchVCheck
    by_cases hc : (v.length == 11 && v.all isIdChar) = true
    · rw [if_pos hc]
      simp only [Bool.and_eq_true, beq_iff_eq] at hc
      exact hc
    · rw [if_neg hc]
      trivial
  · unfold extractYouTubeId
    refine orO_shape (searchWith_shape _ (fun _ _ => vParamMatchHere_shape) _)
      (orO_shape (searchWith_shape _ (fun _ _ => litMatchHere_shape) _)
      (orO_shape (searchWith_shape _ (fun _ _ => litMatchHere_shape) _)
      (orO_shape (searchWith_shape _ (fun _ _ => litMatchHere_shape) _)
      (searchB_shape none _))))

example : extractYouTubeId "https://youtu.be/dQw4w9WgXcQ".data =
    some "dQw4w9WgXcQ".data := by decide

/-! ## Time-token parsing (src/frontend/middleware.ts 21-42,
src/frontend/src/app/page.tsx 15-33)

Both files carry a copy of `parseYouTubeTimeToSeconds`; each copy is
embedded separately below, applied to the already-extracted
`t`/`time_continue` value (`none`, like the empty string, is JS-falsy). -/

/-- Match `^(\d+)s$`: the whole token is a digit run followed by `s`. -/
def secOnlyMatch (v : List Char) : Option Nat :=
  let ds := v.takeWhile isDigitC
  let rest := v.dropWhile isDigitC
  if ds ≠ [] ∧ rest = ['s'] then some (digitsToNat ds) else none

/-- Match `(\d+)u` for a unit character `u` (leftmost match of the regexes
`/(\d+)h/`, `/(\d+)m/`, `/(\d+)s/`): the first maximal digit run that is
immediately followed by `u`; capture is that run's value. -/
def findNumBefore (unit : Char) : List Char → Option Nat
  | [] => none
  | c :: rest =>
    if isDigitC c then
      let run := (c :: rest).takeWhile isDigitC
      let aft := (c :: rest).dropWhile isDigitC
      if aft.head? = some unit then some (digitsToNat run)
      else findNumBefore unit rest
    else findNumBefore unit rest

/-- `parseYouTubeTimeToSeconds` as written in src/frontend/middleware.ts
21-42, applied to the raw `t`/`time_continue` value. -/
def parseYouTubeTimeToSecondsMW (raw : Option (List Char)) : Option Nat :=
  match raw with
  | none => none
  | some rawS =>
    if rawS = [] then none
    else
      let v := (jsTrim rawS).map jsToLower
      if v ≠ [] ∧ v.all isDigitC then some (digitsToNat v)
      else
        match secOnlyMatch v with
        | some n => some n
        | none =>
          let hours := (findNumBefore 'h' v).getD 0
          let mins := (findNumBefore 'm' v).getD 0
          let secs := (findNumBefore 's' v).getD 0
          some (hours * 3600 + mins * 60 + secs)

/-- `parseYouTubeTimeToSeconds` as written in src/frontend/src/app/page.tsx
15-33, applied to its `val` argument. -/
def parseYouTubeTimeToSecondsPage (val : Option (List Char)) : Option Nat :=
  match val with
  | none => none
  | some valS =>
    if valS = [] then none
    else
      let v := (jsTrim valS).map jsToLower
      if v ≠ [] ∧ v.all isDigitC then some (digitsToNat v)
      else
        match secOnlyMatch v with
        | some n => some n
        | none =>
          let hours := (findNumBefore 'h' v).getD 0
          let mins := (findNumBefore 'm' v).getD 0
          let secs := (findNumBefore 's' v).getD 0
          some (hours * 3600 + mins * 60 + secs)

/-! ### Character-class facts used by the time-parsing proofs -/

lemma digit_not_space {c : Char} (h : isDigitC c = true) : isJsSpace c = false := by
  simp only [isDigitC, Bool.and_eq_true, decide_eq_true_eq] at h
  simp only [isJsSpace, Bool.or_eq_false_iff, Bool.and_eq_false_iff,
    beq_eq_false_iff_ne, ne_eq, decide_eq_false_iff_not, not_le]
  omega

lemma digit_tolower {c : Char} (h : isDigitC c = true) : jsToLower c = c := by
  simp only [isDigitC, Bool.and_eq_true, decide_eq_true_eq] at h
  unfold jsToLower
  split
  · next hcond =>
    exfalso
    simp only [Bool.and_eq_true, decide_eq_true_eq] at hcond
    omega
  · rfl

lemma dropWhile_all_false {α : Type} {p : α → Bool} :
    ∀ l : List α, (∀ x ∈ l, p x = false) → l.dropWhile p = l := by
  intro l h
  cases l with
  | nil => rfl
  | cons a as =>
    have ha := h a (by simp)
    simp [List.dropWhile_cons, ha]

lemma jsTrim_eq_self {l : List Char} (h : ∀ x ∈ l, isJsSpace x = false) :
    jsTrim l = l := by
  unfold jsTrim
  rw [dropWhile_all_false l h,
    dropWhile_all_false l.reverse (fun x hx => h x (List.mem_reverse.mp hx)),
    List.reverse_reverse]

lemma map_jsToLower_eq_self {l : List Char} (h : ∀ x ∈ l, jsToLower x = x) :
    l.map jsToLower = l := by
  induction l with
  | nil => rfl
  | cons a as ih =>
    simp only [List.map_cons, h a (by simp), ih (fun x hx => h x (by simp [hx]))]

/-- Combined: trimming and lowercasing leave a clean token unchanged. -/
lemma clean_token {l : List Char}
    (h : ∀ x ∈ l, isJsSpace x = false ∧ jsToLower x = x) :
    (jsTrim l).map jsToLower = l := by
  rw [jsTrim_eq_self (fun x hx => (h x hx).1),
    map_jsToLower_eq_self (fun x hx => (h x hx).2)]

lemma takeWhile_append_all {α : Type} {p : α → Bool} :
    ∀ (l1 l2 : List α), (∀ x ∈ l1, p x = true) →
      (l1 ++ l2).takeWhile p = l1 ++ l2.takeWhile p := by
  intro l1
  induction l1 with
  | nil => intro l2 _; rfl
  | cons a as ih =>
    intro l2 h
    simp only [List.cons_append, List.takeWhile_cons, h a (by simp),
      ih l2 (fun x hx => h x (by simp [hx])), if_true]

lemma dropWhile_append_all {α : Type} {p : α → Bool} :
    ∀ (l1 l2 : List α), (∀ x ∈ l1, p x = true) →
      (l1 ++ l2).dropWhile p = l2.dropWhile p := by
  intro l1
  induction l1 with
  | nil => intro l2 _; rfl
  | cons a as ih =>
    intro l2 h
    simp only [List.cons_append, List.dropWhile_cons, h a (by simp),
      ih l2 (fun x hx => h x (by simp [hx])), if_true]

lemma findNumBefore_nondigit {unit c : Char} (hc : isDigitC c = false)
    (rest : List Char) :
    findNumBefore unit (c :: rest) = findNumBefore unit rest := by
  conv_lhs => unfold findNumBefore
  rw [if_neg (by simp [hc])]

lemma findNumBefore_hit {unit : Char} (hu : isDigitC unit = false) :
    ∀ (dsl : List Char), dsl ≠ [] → (∀ x ∈ dsl, isDigitC x = true) →
    ∀ rest : List Char,
      findNumBefore unit (dsl ++ unit :: rest) = some (digitsToNat dsl) := by
  intro dsl hne hd rest
  cases dsl with
  | nil => exact absurd rfl hne
  | cons d0 dtl =>
    have hd0 : isDigitC d0 = true := hd d0 (by simp)
    have htw : (d0 :: (dtl ++ unit :: rest)).takeWhile isDigitC = d0 :: dtl := by
      rw [show d0 :: (dtl ++ unit :: rest) = (d0 :: dtl) ++ unit :: rest from rfl,
        takeWhile_append_all _ _ hd]
      simp [List.takeWhile_cons, hu]
    have hdw : (d0 :: (dtl ++ unit :: rest)).dropWhile isDigitC = unit :: rest := by
      rw [show d0 :: (dtl ++ unit :: rest) = (d0 :: dtl) ++ unit :: rest from rfl,
        dropWhile_append_all _ _ hd]
      simp [List.dropWhile_cons, hu]
    show findNumBefore unit (d0 :: (dtl ++ unit :: rest)) = some (digitsToNat (d0 :: dtl))
    conv_lhs => unfold findNumBefore
    rw [if_pos hd0]
    simp only [htw, hdw, List.head?_cons, eq_self_iff_true, if_true]

lemma findNumBefore_skip {unit c : Char} (hc : isDigitC c = false)
    (hne : c ≠ unit) :
    ∀ (dsl : List Char), (∀ x ∈ dsl, isDigitC x = true) →
    ∀ rest : List Char,
      findNumBefore unit (dsl ++ c :: rest) = findNumBefore unit (c :: rest) := by
  intro dsl
  induction dsl with
  | nil => intro _ rest; rfl
  | cons d0 dtl ih =>
    intro hd rest
    have hd0 : isDigitC d0 = true := hd d0 (by simp)
    have hdtl : ∀ x ∈ dtl, isDigitC x = true := fun x hx => hd x (by simp [hx])
    have hdw : (d0 :: (dtl ++ c :: rest)).dropWhile isDigitC = c :: rest := by
      rw [show d0 :: (dtl ++ c :: rest) = (d0 :: dtl) ++ c :: rest from rfl,
        dropWhile_append_all _ _ hd]
      simp [List.dropWhile_cons, hc]
    show findNumBefore unit (d0 :: (dtl ++ c :: rest)) = findNumBefore unit (c :: rest)
    conv_lhs => unfold findNumBefore
    rw [if_pos hd0]
    simp only [hdw, List.head?_cons]
    rw [if_neg (by simp [hne])]
    exact ih hdtl rest

lemma clean_digit {c : Char} (h : isDigitC c = true) :
    isJsSpace c = false ∧ jsToLower c = c :=
  ⟨digit_not_space h, digit_tolower h⟩

/-- C9: the two copies of `parseYouTubeTimeToSeconds` (middleware.ts and
page.tsx) compute the same result for every time token; for a non-null
token the result is null or a non-negative integer; a pure digit string
`d` yields `d`, `Ns` yields `N`, and the combination `NhNmNs` yields
`3600*Nh + 60*Nm + Ns`. -/
theorem c9_time_parse_copies_agree :
    (∀ tok, parseYouTubeTimeToSecondsMW tok = parseYouTubeTimeToSecondsPage tok) ∧
    (∀ tok, tok ≠ none →
      parseYouTubeTimeToSecondsMW tok = none ∨
      ∃ n : Nat, parseYouTubeTimeToSecondsMW tok = some n) ∧
    (∀ d : List Char, d ≠ [] → (∀ x ∈ d, isDigitC x = true) →
      parseYouTubeTimeToSecondsMW (some d) = some (digitsToNat d)) ∧
    (∀ d : List Char, d ≠ [] → (∀ x ∈ d, isDigitC x = true) →
      parseYouTubeTimeToSecondsMW (some (d ++ ['s'])) = some (digitsToNat d)) ∧
    (∀ dh dm dsl : List Char, dh ≠ [] → dm ≠ [] → dsl ≠ [] →
      (∀ x ∈ dh, isDigitC x = true) → (∀ x ∈ dm, isDigitC x = true) →
      (∀ x ∈ dsl, isDigitC x = true) →
      parseYouTubeTimeToSecondsMW
          (some (dh ++ 'h' :: (dm ++ 'm' :: (dsl ++ ['s'])))) =
        some (digitsToNat dh * 3600 + digitsToNat dm * 60 + digitsToNat dsl)) := by
  refine ⟨fun tok => rfl, ?_, ?_, ?_, ?_⟩
  · intro tok _
    cases h : parseYouTubeTimeToSecondsMW tok with
    | none => exact Or.inl rfl
    | some n => exact Or.inr ⟨n, rfl⟩
  · intro d hne hd
    have hclean : ∀ x ∈ d, isJsSpace x = false ∧ jsToLower x = x :=
      fun x hx => clean_digit (hd x hx)
    have hall : d.all isDigitC = true := List.all_eq_true.mpr hd
    simp only [parseYouTubeTimeToSecondsMW]
    rw [if_neg hne]
    simp only [clean_token hclean]
    rw [if_pos ⟨hne, hall⟩]
  · intro d hne hd
    have hs : isDigitC 's' = false := by decide
    have hcleanT : ∀ x ∈ d ++ ['s'], isJsSpace x = false ∧ jsToLower x = x := by
      intro x hx
      rcases List.mem_append.mp hx with hx | hx
      · exact clean_digit (hd x hx)
      · simp only [List.mem_singleton] at hx
        subst hx
        exact ⟨by decide, by decide⟩
    have hne' : d ++ ['s'] ≠ [] := by simp
    have htw : (d ++ ['s']).takeWhile isDigitC = d := by
      rw [takeWhile_append_all _ _ hd]
      simp [List.takeWhile_cons, hs]
    have hdw : (d ++ ['s']).dropWhile isDigitC = ['s'] := by
      rw [dropWhile_append_all _ _ hd]
      simp [List.dropWhile_cons, hs]
    have hsec : secOnlyMatch (d ++ ['s']) = some (digitsToNat d) := by
      unfold secOnlyMatch
      simp only [htw, hdw]
      simp [hne]
    have hnall : ¬((d ++ ['s']) ≠ [] ∧ (d ++ ['s']).all isDigitC = true) := by
      intro hcon
      have h2 := hcon.2
      simp [List.all_append, hs] at h2
    simp only [parseYouTubeTimeToSecondsMW]
    rw [if_neg hne']
    simp only [clean_token hcleanT]
    rw [if_neg hnall, hsec]
  · intro dh dm dsl hneh hnem hnes hdh hdm hds
    have hs : isDigitC 's' = false := by decide
    have hh : isDigitC 'h' = false := by decide
    have hm : isDigitC 'm' = false := by decide
    have hcleanT : ∀ x ∈ dh ++ 'h' :: (dm ++ 'm' :: (dsl ++ ['s'])),
        isJsSpace x = false ∧ jsToLower x = x := by
      intro x hx
      simp only [List.mem_append, List.mem_cons, List.mem_singleton] at hx
      rcases hx with hx | hx | hx | hx | hx | hx | hx
      · exact clean_digit (hdh x hx)
      · subst hx; exact ⟨by decide, by decide⟩
      · exact clean_digit (hdm x hx)
      · subst hx; exact ⟨by decide, by decide⟩
      · exact clean_digit (hds x hx)
      · subst hx; exact ⟨by decide, by decide⟩
      · exact absurd hx (List.not_mem_nil x)
    have hneT : dh ++ 'h' :: (dm ++ 'm' :: (dsl ++ ['s'])) ≠ [] := by simp
    have htw5 : (dh ++ 'h' :: (dm ++ 'm' :: (dsl ++ ['s']))).takeWhile isDigitC
        = dh := by
      rw [takeWhile_append_all _ _ hdh]
      simp [List.takeWhile_cons, hh]
    have hdw5 : (dh ++ 'h' :: (dm ++ 'm' :: (dsl ++ ['s']))).dropWhile isDigitC
        = 'h' :: (dm ++ 'm' :: (dsl ++ ['s'])) := by
      rw [dropWhile_append_all _ _ hdh]
      simp [List.dropWhile_cons, hh]
    have hsec5 : secOnlyMatch (dh ++ 'h' :: (dm ++ 'm' :: (dsl ++ ['s']))) = none := by
      unfold secOnlyMatch
      simp only [htw5, hdw5]
      have hcon : ¬(dh ≠ [] ∧ ('h' :: (dm ++ 'm' :: (dsl ++ ['s']))) = ['s']) := by
        intro hcon
        have h2 := hcon.2
        simp only [List.cons.injEq] at h2
        exact absurd h2.1 (by decide)
      rw [if_neg hcon]
    have hfindh : findNumBefore 'h' (dh ++ 'h' :: (dm ++ 'm' :: (dsl ++ ['s'])))
        = some (digitsToNat dh) :=
      findNumBefore_hit hh dh hneh hdh _
    have hfindm : findNumBefore 'm' (dh ++ 'h' :: (dm ++ 'm' :: (dsl ++ ['s'])))
        = some (digitsToNat dm) := by
      rw [findNumBefore_skip hh (by decide) dh hdh _, findNumBefore_nondigit hh]
      exact findNumBefore_hit hm dm hnem hdm _
    have hfinds : findNumBefore 's' (dh ++ 'h' :: (dm ++ 'm' :: (dsl ++ ['s'])))
        = some (digitsToNat dsl) := by
      rw [findNumBefore_skip hh (by decide) dh hdh _, findNumBefore_nondigit hh,
        findNumBefore_skip hm (by decide) dm hdm _, findNumBefore_nondigit hm]
      exact findNumBefore_hit hs dsl hnes hds _
    have hnall5 : ¬((dh ++ 'h' :: (dm ++ 'm' :: (dsl ++ ['s']))) ≠ [] ∧
        (dh ++ 'h' :: (dm ++ 'm' :: (dsl ++ ['s']))).all isDigitC = true) := by
      intro hcon
      have h2 := hcon.2
      simp [List.all_append, List.all_cons, hh] at h2
    simp only [parseYouTubeTimeToSecondsMW]
    rw [if_neg hneT]
    simp only [clean_token hcleanT]
    rw [if_neg hnall5, hsec5]
    simp only [hfindh, hfindm, hfinds, Option.getD_some]

/-- Witness for C9 at the concrete token `1h2m3s`. -/
theorem c9_time_parse_witness :
    parseYouTubeTimeToSecondsMW (some ['1', 'h', '2', 'm', '3', 's']) = some 3723 := by
  have h := (c9_time_parse_copies_agree.2.2.2.2) ['1'] ['2'] ['3']
    (by decide) (by decide) (by decide) (by decide) (by decide) (by decide)
  exact h.trans (by decide)

/-! ## Chapter keyboard shortcuts (src/frontend/src/app/page.tsx 85-113) -/

/-- A chapter as consumed by `useChapterShortcuts`: only `start` matters. -/
structure Chapter where
  start : Int
deriving DecidableEq, Repr

/-- The `keydown` handler installed by `useChapterShortcuts`
(src/frontend/src/app/page.tsx 85-102), as the second passed to `onJump`
(`none` when `onJump` is not called).  `targetIsInput` models
`(e.target as HTMLElement).tagName === "INPUT"`; `t` is
`getCurrentSecondFromUrl()` (page.tsx 104-113). -/
def chapterKeyJump (chapters : List Chapter) (targetIsInput : Bool)
    (key : Char) (t : Int) : Option Int :=
  if targetIsInput then none
  else if chapters.isEmpty then none
  else if key = 'j' then
    (chapters.find? (fun c => decide (t < c.start))).map Chapter.start
  else if key = 'k' then
    (chapters.reverse.find? (fun c => decide (c.start < t))).map Chapter.start
  else none

lemma chapterKeyJump_empty {chapters : List Chapter}
    (hemp : chapters.isEmpty = true) (key : Char) (t : Int) :
    chapterKeyJump chapters false key t = none := by
  unfold chapterKeyJump
  rw [if_neg (by simp), if_pos hemp]

lemma chapterKeyJump_j (chapters : List Chapter) (t : Int)
    (hne : chapters.isEmpty = false) :
    chapterKeyJump chapters false 'j' t =
      (chapters.find? (fun c => decide (t < c.start))).map Chapter.start := by
  unfold chapterKeyJump
  rw [if_neg (by simp), if_neg (by simp [hne]), if_pos rfl]

lemma chapterKeyJump_k (chapters : List Chapter) (t : Int)
    (hne : chapters.isEmpty = false) :
    chapterKeyJump chapters false 'k' t =
      (chapters.reverse.find? (fun c => decide (c.start < t))).map Chapter.start := by
  unfold chapterKeyJump
  rw [if_neg (by simp), if_neg (by simp [hne]), if_neg (by decide), if_pos rfl]

lemma find?_first {α : Type} {p : α → Bool} :
    ∀ (l : List α) (a : α), l.find? p = some a →
      ∃ l1 l2, l = l1 ++ a :: l2 ∧ p a = true ∧ ∀ x ∈ l1, p x = false := by
  intro l
  induction l with
  | nil => intro a h; cases h
  | cons b bs ih =>
    intro a h
    cases hb : p b with
    | true =>
      rw [List.find?_cons_of_pos _ hb] at h
      cases h
      exact ⟨[], bs, rfl, hb, by simp⟩
    | false =>
      rw [List.find?_cons_of_neg _ (by simp [hb])] at h
      obtain ⟨l1, l2, heq, hpa, hl1⟩ := ih a h
      refine ⟨b :: l1, l2, by rw [heq]; rfl, hpa, ?_⟩
      intro x hx
      rcases List.mem_cons.mp hx with hx | hx
      · subst hx; exact hb
      · exact hl1 x hx

/-- C10: with a non-empty chapter list and current time `t`, the `j` key
jumps to the start of the first chapter with start strictly greater than
`t`, and `k` to the start of the last chapter with start strictly less
than `t`; when no such chapter exists, the list is empty, or the key
target is an input element, `onJump` is not called. -/
theorem c10_chapter_shortcut_jumps :
    ∀ (chapters : List Chapter) (t : Int) (key : Char),
      (∀ k2 t2, chapterKeyJump chapters true k2 t2 = none) ∧
      (chapterKeyJump [] false key t = none) ∧
      (∀ s, chapterKeyJump chapters false 'j' t = some s →
        ∃ l1 c l2, chapters = l1 ++ c :: l2 ∧ c.start = s ∧ t < s ∧
          ∀ x ∈ l1, x.start ≤ t) ∧
      (chapterKeyJump chapters false 'j' t = none →
        ∀ c ∈ chapters, c.start ≤ t) ∧
      (∀ s, chapterKeyJump chapters false 'k' t = some s →
        ∃ l1 c l2, chapters = l1 ++ c :: l2 ∧ c.start = s ∧ s < t ∧
          ∀ x ∈ l2, t ≤ x.start) ∧
      (chapterKeyJump chapters false 'k' t = none →
        ∀ c ∈ chapters, t ≤ c.start) ∧
      (key ≠ 'j' → key ≠ 'k' → chapterKeyJump chapters false key t = none) := by
  intro chapters t key
  refine ⟨fun k2 t2 => rfl, rfl, ?_, ?_, ?_, ?_, ?_⟩
  · intro s h
    cases hemp : chapters.isEmpty with
    | true => rw [chapterKeyJump_empty hemp] at h; cases h
    | false =>
      rw [chapterKeyJump_j chapters t hemp] at h
      obtain ⟨c, hfind, hcs⟩ := Option.map_eq_some'.mp h
      obtain ⟨l1, l2, heq, hpc, hl1⟩ := find?_first chapters c hfind
      refine ⟨l1, c, l2, heq, hcs, ?_, ?_⟩
      · rw [← hcs]; exact of_decide_eq_true hpc
      · intro x hx
        exact not_lt.mp (of_decide_eq_false (hl1 x hx))
  · intro h c hc
    cases hemp : chapters.isEmpty with
    | true =>
      rw [List.isEmpty_iff] at hemp
      subst hemp
      cases hc
    | false =>
      rw [chapterKeyJump_j chapters t hemp, Option.map_eq_none'] at h
      rw [List.find?_eq_none] at h
      exact not_lt.mp (fun hlt => h c hc (decide_eq_true hlt))
  · intro s h
    cases hemp : chapters.isEmpty with
    | true => rw [chapterKeyJump_empty hemp] at h; cases h
    | false =>
      rw [chapterKeyJump_k chapters t hemp] at h
      obtain ⟨c, hfind, hcs⟩ := Option.map_eq_some'.mp h
      obtain ⟨r1, r2, heq, hpc, hr1⟩ := find?_first chapters.reverse c hfind
      refine ⟨r2.reverse, c, r1.reverse, ?_, hcs, ?_, ?_⟩
      · calc chapters = chapters.reverse.reverse := (List.reverse_reverse _).symm
          _ = (r1 ++ c :: r2).reverse := by rw [heq]
          _ = r2.reverse ++ c :: r1.reverse := by
              simp [List.reverse_append, List.append_assoc]
      · rw [← hcs]; exact of_decide_eq_true hpc
      · intro x hx
        exact not_lt.mp (of_decide_eq_false (hr1 x (List.mem_reverse.mp hx)))
  · intro h c hc
    cases hemp : chapters.isEmpty with
    | true =>
      rw [List.isEmpty_iff] at hemp
      subst hemp
      cases hc
    | false =>
      rw [chapterKeyJump_k chapters t hemp, Option.map_eq_none'] at h
      rw [List.find?_eq_none] at h
      exact not_lt.mp
        (fun hlt => h c (List.mem_reverse.mpr hc) (decide_eq_true hlt))
  · intro hj hk
    unfold chapterKeyJump
    cases hemp : chapters.isEmpty with
    | true => rw [if_neg (by simp), if_pos rfl]
    | false =>
      rw [if_neg (by simp), if_neg (by simp), if_neg hj, if_neg hk]

/-- Witness for C10 at `chapters = [0, 60, 120]`, `t = 30`, key `j`. -/
theorem c10_chapter_shortcut_witness :
    ∃ l1 c l2, [Chapter.mk 0, Chapter.mk 60, Chapter.mk 120] = l1 ++ c :: l2 ∧
      c.start = 60 ∧ (30 : Int) < 60 ∧ ∀ x ∈ l1, x.start ≤ 30 :=
  (c10_chapter_shortcut_jumps [Chapter.mk 0, Chapter.mk 60, Chapter.mk 120]
    30 'j').2.2.1 60 (by decide)


/-! ## Rate Limiter / Quota Guard (spec §4.4)

The backend implementation is not among the provided sources (only its
README and test-runner references survive); the guard is modelled from
the specification text. -/

/-- Decision returned by the guard (spec §4.4). -/
inductive Decision where
  | ALLOW
  | DENY_RATE
  | DENY_QUOTA
deriving DecidableEq, Repr

/-- Sliding-window size in seconds (spec: 60-second window). -/
def windowSize : Nat := 60

/-- Maximum requests per window (spec: `maxPerWindow = 5`). -/
def maxPerWindow : Nat := 5

/-- Daily cap (spec: `dailyCap = 100`). -/
def dailyCap : Nat := 100

/-- Seconds in the rolling day (spec: 24h). -/
def dayLength : Nat := 86400

/-- Modelled from the spec: `ClientWindowState` (§3), the per-client guard
state, whose implementation is not among the provided sources. -/
structure ClientWindowState where
  clientKey : List Char
  recentRequestTimestamps : List Nat
  dailyCount : Nat
  dailyWindowStart : Nat
deriving DecidableEq, Repr

/-- Modelled from the spec: drop timestamps older than `now - windowSize`
(§4.4). -/
def slideWindow (now : Nat) (l : List Nat) : List Nat :=
  l.filter (fun ts => decide (now - windowSize ≤ ts))

/-- Modelled from the spec: the daily-quota step of `admit` (§4.4) — reset
the counter (to 0, with `dailyWindowStart = now`) when
`now - dailyWindowStart ≥ 24h`; DENY_QUOTA when `dailyCount ≥ dailyCap`;
otherwise increment `dailyCount` and ALLOW. -/
def quotaCheck (now : Nat) (st : ClientWindowState) :
    Decision × ClientWindowState :=
  let st2 := if dayLength ≤ now - st.dailyWindowStart then
      { st with dailyCount := 0, dailyWindowStart := now }
    else st
  if dailyCap ≤ st2.dailyCount then (Decision.DENY_QUOTA, st2)
  else (Decision.ALLOW, { st2 with dailyCount := st2.dailyCount + 1 })

/-- Modelled from the spec: `admit(clientKey)` (§4.4, exposed to the
routing layer as `checkRateLimit`, §6), whose implementation is not among
the provided sources.  Drop old timestamps; if fewer than `maxPerWindow`
remain, append `now` and continue to the quota check, otherwise return
DENY_RATE without mutating quota state. -/
def checkRateLimit (now : Nat) (st : ClientWindowState) :
    Decision × ClientWindowState :=
  if (slideWindow now st.recentRequestTimestamps).length < maxPerWindow then
    quotaCheck now
      { st with recentRequestTimestamps := slideWindow now st.recentRequestTimestamps ++ [now] }
  else
    (Decision.DENY_RATE,
      { st with recentRequestTimestamps := slideWindow now st.recentRequestTimestamps })

lemma quotaCheck_reset {now : Nat} {st : ClientWindowState}
    (h : dayLength ≤ now - st.dailyWindowStart) :
    quotaCheck now st =
      (Decision.ALLOW, { st with dailyCount := 1, dailyWindowStart := now }) := by
  simp only [quotaCheck]
  rw [if_pos h, if_neg (by simp [dailyCap])]

lemma quotaCheck_deny {now : Nat} {st : ClientWindowState}
    (h : now - st.dailyWindowStart < dayLength) (hcap : dailyCap ≤ st.dailyCount) :
    quotaCheck now st = (Decision.DENY_QUOTA, st) := by
  simp only [quotaCheck]
  rw [if_neg (not_le.mpr h), if_pos hcap]

lemma quotaCheck_allow {now : Nat} {st : ClientWindowState}
    (h : now - st.dailyWindowStart < dayLength) (hcap : st.dailyCount < dailyCap) :
    quotaCheck now st =
      (Decision.ALLOW, { st with dailyCount := st.dailyCount + 1 }) := by
  simp only [quotaCheck]
  rw [if_neg (not_le.mpr h), if_neg (not_le.mpr hcap)]

lemma checkRateLimit_deny_rate {now : Nat} {st : ClientWindowState}
    (h : ¬ (slideWindow now st.recentRequestTimestamps).length < maxPerWindow) :
    checkRateLimit now st = (Decision.DENY_RATE,
      { st with recentRequestTimestamps := slideWindow now st.recentRequestTimestamps }) := by
  simp only [checkRateLimit]
  rw [if_neg h]

lemma checkRateLimit_pass {now : Nat} {st : ClientWindowState}
    (h : (slideWindow now st.recentRequestTimestamps).length < maxPerWindow) :
    checkRateLimit now st = quotaCheck now
      { st with recentRequestTimestamps := slideWindow now st.recentRequestTimestamps ++ [now] } := by
  simp only [checkRateLimit]
  rw [if_pos h]

/-- C2: with `maxPerWindow = 5` over a 60-second sliding window, a request
arriving while 5 timestamps lie within the trailing window returns
DENY_RATE; after the window has elapsed (all prior timestamps older than
`now - windowSize` are dropped), a request returns ALLOW (given daily
quota headroom). -/
theorem c2_sliding_window_rate_limit :
    ∀ (now : Nat) (st : ClientWindowState),
      (5 ≤ (slideWindow now st.recentRequestTimestamps).length →
        (checkRateLimit now st).1 = Decision.DENY_RATE) ∧
      ((∀ ts ∈ st.recentRequestTimestamps, ts < now - windowSize) →
        st.dailyCount < dailyCap →
        (checkRateLimit now st).1 = Decision.ALLOW) := by
  intro now st
  constructor
  · intro h5
    rw [checkRateLimit_deny_rate (by simp only [maxPerWindow]; omega)]
  · intro hall hq
    have hfil : slideWindow now st.recentRequestTimestamps = [] := by
      rw [slideWindow, List.filter_eq_nil_iff]
      intro ts hts
      have := hall ts hts
      simp only [decide_eq_true_eq]
      omega
    rw [checkRateLimit_pass (by rw [hfil]; decide)]
    by_cases hreset : dayLength ≤ now - st.dailyWindowStart
    · rw [quotaCheck_reset (by simpa using hreset)]
    · rw [quotaCheck_allow (by simpa using not_le.mp hreset) (by simpa using hq)]

/-- Witness for C2: five in-window timestamps deny the 6th request; an
expired window allows. -/
theorem c2_sliding_window_witness :
    (checkRateLimit 150 ⟨['a'], [100, 110, 120, 130, 140], 7, 50⟩).1 =
      Decision.DENY_RATE ∧
    (checkRateLimit 150 ⟨['a'], [10, 20], 7, 50⟩).1 = Decision.ALLOW :=
  ⟨(c2_sliding_window_rate_limit 150 ⟨['a'], [100, 110, 120, 130, 140], 7, 50⟩).1
      (by decide),
   (c2_sliding_window_rate_limit 150 ⟨['a'], [10, 20], 7, 50⟩).2
      (by decide) (by decide)⟩

/-- C3: with `dailyCap = 100`, a request within the rolling day while
`dailyCount` has reached the cap returns DENY_QUOTA; when
`now - dailyWindowStart ≥ 24h` the counter is reset to 0 and
`dailyWindowStart` set to `now`, after which the request returns ALLOW
and increments `dailyCount` (to 1). -/
theorem c3_daily_quota :
    ∀ (now : Nat) (st : ClientWindowState),
      ((slideWindow now st.recentRequestTimestamps).length < maxPerWindow →
        now - st.dailyWindowStart < dayLength →
        dailyCap ≤ st.dailyCount →
        (checkRateLimit now st).1 = Decision.DENY_QUOTA) ∧
      ((slideWindow now st.recentRequestTimestamps).length < maxPerWindow →
        dayLength ≤ now - st.dailyWindowStart →
        (checkRateLimit now st).1 = Decision.ALLOW ∧
        (checkRateLimit now st).2.dailyCount = 1 ∧
        (checkRateLimit now st).2.dailyWindowStart = now) := by
  intro now st
  constructor
  · intro hrate hday hcap
    rw [checkRateLimit_pass hrate,
      quotaCheck_deny (by simpa using hday) (by simpa using hcap)]
  · intro hrate hday
    rw [checkRateLimit_pass hrate, quotaCheck_reset (by simpa using hday)]
    exact ⟨rfl, rfl, rfl⟩

/-- Witness for C3: a capped client is denied within the day; after 24h
the counter resets and the request is allowed. -/
theorem c3_daily_quota_witness :
    (checkRateLimit 200000 ⟨['b'], [], 100, 150000⟩).1 = Decision.DENY_QUOTA ∧
    ((checkRateLimit 90000 ⟨['b'], [], 100, 100⟩).1 = Decision.ALLOW ∧
      (checkRateLimit 90000 ⟨['b'], [], 100, 100⟩).2.dailyCount = 1 ∧
      (checkRateLimit 90000 ⟨['b'], [], 100, 100⟩).2.dailyWindowStart = 90000) :=
  ⟨(c3_daily_quota 200000 ⟨['b'], [], 100, 150000⟩).1
      (by decide) (by decide) (by decide),
   (c3_daily_quota 90000 ⟨['b'], [], 100, 100⟩).2 (by decide) (by decide)⟩

/-- C8: a DENY_RATE outcome leaves the daily-quota state (`dailyCount`
and `dailyWindowStart`) unchanged, and only an ALLOW outcome changes
`dailyCount`. -/
theorem c8_deny_rate_preserves_quota :
    ∀ (now : Nat) (st : ClientWindowState),
      ((checkRateLimit now st).1 = Decision.DENY_RATE →
        (checkRateLimit now st).2.dailyCount = st.dailyCount ∧
        (checkRateLimit now st).2.dailyWindowStart = st.dailyWindowStart) ∧
      ((checkRateLimit now st).2.dailyCount ≠ st.dailyCount →
        (checkRateLimit now st).1 = Decision.ALLOW) := by
  intro now st
  by_cases hrate : (slideWindow now st.recentRequestTimestamps).length < maxPerWindow
  · rw [checkRateLimit_pass hrate]
    by_cases hreset : dayLength ≤ now -
        ({ st with recentRequestTimestamps :=
          slideWindow now st.recentRequestTimestamps ++ [now] }).dailyWindowStart
    · rw [quotaCheck_reset hreset]
      exact ⟨fun h => by simp at h, fun _ => rfl⟩
    · by_cases hcap : dailyCap ≤
          ({ st with recentRequestTimestamps :=
            slideWindow now st.recentRequestTimestamps ++ [now] }).dailyCount
      · rw [quotaCheck_deny (not_le.mp hreset) hcap]
        exact ⟨fun h => by simp at h, fun h => absurd rfl h⟩
      · rw [quotaCheck_allow (not_le.mp hreset) (not_le.mp hcap)]
        exact ⟨fun h => by simp at h, fun _ => rfl⟩
  · rw [checkRateLimit_deny_rate hrate]
    exact ⟨fun _ => ⟨rfl, rfl⟩, fun h => absurd rfl h⟩

/-- Witness for C8 at a rate-denied request. -/
theorem c8_deny_rate_witness :
    (checkRateLimit 60 ⟨['c'], [10, 20, 30, 40, 50], 42, 5⟩).2.dailyCount = 42 ∧
    (checkRateLimit 60 ⟨['c'], [10, 20, 30, 40, 50], 42, 5⟩).2.dailyWindowStart = 5 :=
  (c8_deny_rate_preserves_quota 60 ⟨['c'], [10, 20, 30, 40, 50], 42, 5⟩).1
    (by decide)

/-! ## Transcript data model, punctuation restorer, pipeline, cache
(spec §3, §4.1-4.3)

The backend implementation is not among the provided sources; these
components are modelled from the specification text. -/

/-- `TranscriptSegment` (spec §3).  The source field `end` is named
`endTime` because `end` is a Lean keyword. -/
structure TranscriptSegment where
  start : Int
  endTime : Int
  text : List Char
deriving DecidableEq, Repr

/-- Transcript source tag (spec §3). -/
inductive Source where
  | AUTHORITATIVE
  | FALLBACK_RECOGNIZED
deriving DecidableEq, Repr

/-- `Transcript` (spec §3). -/
structure Transcript where
  videoId : List Char
  language : List Char
  segments : List TranscriptSegment
  source : Source
  fetchedAt : Nat
deriving DecidableEq, Repr

/-- Authoritative-source failures (spec §6). -/
inductive AuthError where
  | NOT_FOUND
  | UNREACHABLE
deriving DecidableEq, Repr

/-- Audio Acquirer failures (spec §6). -/
inductive AudioError where
  | VIDEO_UNAVAILABLE
  | DOWNLOAD_ERROR
deriving DecidableEq, Repr

/-- Speech Recognizer failures (spec §6). -/
inductive RecError where
  | ENGINE_UNAVAILABLE
  | RECOGNITION_ERROR
deriving DecidableEq, Repr

/-- Acquisition errors surfaced by the orchestrator (spec §7). -/
inductive AcqError where
  | VIDEO_UNAVAILABLE
  | FALLBACK_UNAVAILABLE
deriving DecidableEq, Repr

/-- Modelled from the spec: the Punctuation Restorer (§4.2), whose
implementation is not among the provided sources.  The punctuation model
is `none` when unavailable (capability check, §9); when present it is a
deterministic text-rewriting function applied to each segment's text,
preserving the alignment fields. -/
def restore (model : Option (List Char → List Char))
    (segments : List TranscriptSegment) : List TranscriptSegment :=
  match model with
  | none => segments
  | some f => segments.map (fun s => { s with text := f s.text })

/-- C4: `restore` returns a sequence with the same count and, at every
position, the same start/end timestamps as its input, rewriting only
`text`; it is deterministic, and when the punctuation model is
unavailable it returns the input unchanged. -/
theorem c4_restore_preserves_alignment :
    ∀ (model : Option (List Char → List Char))
      (segments : List TranscriptSegment),
      (restore model segments).length = segments.length ∧
      (restore model segments).map (fun s => (s.start, s.endTime)) =
        segments.map (fun s => (s.start, s.endTime)) ∧
      (∀ segments2, segments = segments2 →
        restore model segments = restore model segments2) ∧
      restore none segments = segments := by
  intro model segments
  refine ⟨?_, ?_, fun s2 h => by rw [h], rfl⟩
  · cases model with
    | none => rfl
    | some f => simp [restore]
  · cases model with
    | none => rfl
    | some f => simp [restore, List.map_map]

/-- Witness for C4 at a concrete segment list and punctuation model. -/
theorem c4_restore_witness :
    restore (some (fun t => t ++ ['.'])) [⟨0, 2, "hello world".data⟩] =
      restore (some (fun t => t ++ ['.'])) [⟨0, 2, "hello world".data⟩] ∧
    restore none [⟨0, 2, "hello world".data⟩] = [⟨0, 2, "hello world".data⟩] :=
  ⟨(c4_restore_preserves_alignment (some (fun t => t ++ ['.']))
      [⟨0, 2, "hello world".data⟩]).2.2.1 [⟨0, 2, "hello world".data⟩] rfl,
   (c4_restore_preserves_alignment none [⟨0, 2, "hello world".data⟩]).2.2.2⟩

/-! ## Segment normalization and the acquisition pipeline (spec §4.1) -/

/-- Modelled from the spec: merge zero-length gaps (§4.1.3a) — adjacent
segments where the next starts exactly where the previous ends are
combined. -/
def mergeZeroGapsGo (a : TranscriptSegment) :
    List TranscriptSegment → List TranscriptSegment
  | [] => [a]
  | b :: rest =>
    if b.start = a.endTime then
      mergeZeroGapsGo ⟨a.start, b.endTime, a.text ++ ' ' :: b.text⟩ rest
    else a :: mergeZeroGapsGo b rest

/-- Modelled from the spec: entry point of zero-length-gap merging. -/
def mergeZeroGaps : List TranscriptSegment → List TranscriptSegment
  | [] => []
  | a :: rest => mergeZeroGapsGo a rest

/-- Modelled from the spec: clip negative starts to 0 (§4.1.3a). -/
def clipStart (s : TranscriptSegment) : TranscriptSegment :=
  { s with start := max 0 s.start }

/-- Modelled from the spec: ensure monotonic non-decreasing start times
(§4.1.3a), raising each start to the running maximum. -/
def monotonize (prev : Int) : List TranscriptSegment → List TranscriptSegment
  | [] => []
  | s :: rest =>
    (⟨max prev s.start, s.endTime, s.text⟩ : TranscriptSegment) ::
      monotonize (max prev s.start) rest

/-- Modelled from the spec: segment normalization (§4.1.3a) — merge
zero-length gaps, clip negative starts to 0, ensure monotonic
non-decreasing start times. -/
def normalizeSegments (segments : List TranscriptSegment) : List TranscriptSegment :=
  monotonize 0 ((mergeZeroGaps segments).map clipStart)

lemma monotonize_start_ge (prev : Int) :
    ∀ l : List TranscriptSegment, ∀ s ∈ monotonize prev l, prev ≤ s.start := by
  intro l
  induction l generalizing prev with
  | nil => intro s hs; cases hs
  | cons a rest ih =>
    intro s hs
    rcases List.mem_cons.mp hs with hs | hs
    · subst hs; exact le_max_left _ _
    · exact le_trans (le_max_left _ _) (ih (max prev a.start) s hs)

lemma monotonize_chain (prev : Int) :
    ∀ l : List TranscriptSegment,
      List.Chain' (fun a b => a.start ≤ b.start) (monotonize prev l) := by
  intro l
  induction l generalizing prev with
  | nil => exact List.chain'_nil
  | cons a rest ih =>
    rw [monotonize, List.chain'_cons']
    refine ⟨?_, ih (max prev a.start)⟩
    intro b hb
    have hmem : b ∈ monotonize (max prev a.start) rest := by
      cases hrest : monotonize (max prev a.start) rest with
      | nil => rw [hrest] at hb; cases hb
      | cons x xs =>
        rw [hrest] at hb
        simp only [List.head?_cons, Option.mem_def, Option.some.injEq] at hb
        rw [← hb]
        exact List.mem_cons_self x xs
    exact monotonize_start_ge (max prev a.start) rest b hmem

/-- Modelled from the spec: the external collaborators of the pipeline
(§6) — authoritative source, audio acquirer, speech recognizer,
punctuation model — as deterministic functions. -/
structure World where
  authoritative : List Char → List Char →
    Except AuthError (List TranscriptSegment)
  download : List Char → Except AudioError Nat
  transcribe : Nat → Except RecError (List TranscriptSegment)
  punctModel : Option (List Char → List Char)

/-- Modelled from the spec: the fallback chain of `acquire` (§4.1 steps
3a-3c), whose implementation is not among the provided sources:
authoritative source first (normalized, `AUTHORITATIVE`), else audio
download → speech recognition → punctuation restoration
(`FALLBACK_RECOGNIZED`); a missing external dependency fails fast with
`FALLBACK_UNAVAILABLE`.  Returns the result together with the number of
external calls made (authoritative fetch, audio download, recognition).
Bounded retry (§4.1.3d) is not modelled: the stages are deterministic
functions of the world. -/
def computeTranscript (w : World) (vid lang : List Char) (now : Nat) :
    Except AcqError Transcript × Nat :=
  match w.authoritative vid lang with
  | Except.ok segs =>
    (Except.ok ⟨vid, lang, normalizeSegments segs, Source.AUTHORITATIVE, now⟩, 1)
  | Except.error _ =>
    match w.download vid with
    | Except.error AudioError.VIDEO_UNAVAILABLE =>
      (Except.error AcqError.VIDEO_UNAVAILABLE, 2)
    | Except.error AudioError.DOWNLOAD_ERROR =>
      (Except.error AcqError.FALLBACK_UNAVAILABLE, 2)
    | Except.ok h =>
      match w.transcribe h with
      | Except.error _ => (Except.error AcqError.FALLBACK_UNAVAILABLE, 3)
      | Except.ok raw =>
        (Except.ok ⟨vid, lang, normalizeSegments (restore w.punctModel raw),
          Source.FALLBACK_RECOGNIZED, now⟩, 3)

/-- Modelled from the spec: Transcript Cache lookup keyed by
`(videoId, language)` (§4.3), over an association list. -/
def cacheLookup : List ((List Char × List Char) × Transcript) →
    (List Char × List Char) → Option Transcript
  | [], _ => none
  | (k, t) :: rest, key => if k = key then some t else cacheLookup rest key

/-- Modelled from the spec: `acquire(videoId, preferredLanguage)` (§4.1),
whose implementation is not among the provided sources: a live cache
entry short-circuits (no external calls); otherwise the fallback chain
runs and a success populates the cache (failures never do — no negative
caching).  Returns (result, new cache, number of external calls). -/
def acquire (w : World)
    (cache : List ((List Char × List Char) × Transcript))
    (vid lang : List Char) (now : Nat) :
    Except AcqError Transcript ×
      List ((List Char × List Char) × Transcript) × Nat :=
  match cacheLookup cache (vid, lang) with
  | some t => (Except.ok t, cache, 0)
  | none =>
    match computeTranscript w vid lang now with
    | (Except.ok t, n) => (Except.ok t, ((vid, lang), t) :: cache, n)
    | (Except.error e, n) => (Except.error e, cache, n)

/-- C5: after one successful `acquire` for a key, a second sequential
`acquire` with the same key returns the bit-identical Transcript from the
cache, with zero external calls (no authoritative fetch, audio download,
or recognition) and an unchanged cache. -/
theorem c5_acquire_idempotent :
    ∀ (w : World) (cache : List ((List Char × List Char) × Transcript))
      (vid lang : List Char) (now now2 : Nat) (t : Transcript)
      (cache2 : List ((List Char × List Char) × Transcript)) (n : Nat),
      acquire w cache vid lang now = (Except.ok t, cache2, n) →
      acquire w cache2 vid lang now2 = (Except.ok t, cache2, 0) := by
  intro w cache vid lang now now2 t cache2 n h
  unfold acquire at h
  cases hl : cacheLookup cache (vid, lang) with
  | some t0 =>
    rw [hl] at h
    simp only [Prod.mk.injEq, Except.ok.injEq] at h
    obtain ⟨ht, hc, -⟩ := h
    subst ht
    subst hc
    unfold acquire
    rw [hl]
  | none =>
    rw [hl] at h
    cases hc : computeTranscript w vid lang now with
    | mk res n1 =>
      rw [hc] at h
      cases res with
      | ok t0 =>
        simp only [Prod.mk.injEq, Except.ok.injEq] at h
        obtain ⟨ht, hcc, -⟩ := h
        subst ht
        rw [← hcc]
        unfold acquire
        unfold cacheLookup
        rw [if_pos rfl]
      | error e =>
        simp only [Prod.mk.injEq] at h
        exact absurd h.1 (by simp)

/-- Concrete world for the pipeline witnesses: authoritative captions are
available. -/
def wAuth : World where
  authoritative := fun _ _ => Except.ok [⟨0, 2, "hello world".data⟩]
  download := fun _ => Except.error AudioError.VIDEO_UNAVAILABLE
  transcribe := fun _ => Except.error RecError.ENGINE_UNAVAILABLE
  punctModel := none

/-- Witness for C5: a second acquire of `abc12345678` is a cache hit. -/
theorem c5_acquire_witness :
    acquire wAuth
      [(("abc12345678".data, "en".data),
        ⟨"abc12345678".data, "en".data, [⟨0, 2, "hello world".data⟩],
          Source.AUTHORITATIVE, 5⟩)]
      "abc12345678".data "en".data 9 =
    (Except.ok (⟨"abc12345678".data, "en".data, [⟨0, 2, "hello world".data⟩],
        Source.AUTHORITATIVE, 5⟩ : Transcript),
      [(("abc12345678".data, "en".data),
        ⟨"abc12345678".data, "en".data, [⟨0, 2, "hello world".data⟩],
          Source.AUTHORITATIVE, 5⟩)], 0) :=
  c5_acquire_idempotent wAuth [] "abc12345678".data "en".data 5 9 _ _ 1 (by rfl)

/-- C6: for a video whose authoritative captions are available (and no
cache entry short-circuits), `acquire` returns a Transcript with
`source = AUTHORITATIVE` whose segments have non-decreasing starts, with
negative starts clipped to 0 by normalization. -/
theorem c6_authoritative_normalized :
    ∀ (w : World) (cache : List ((List Char × List Char) × Transcript))
      (vid lang : List Char) (now : Nat) (segs : List TranscriptSegment),
      w.authoritative vid lang = Except.ok segs →
      cacheLookup cache (vid, lang) = none →
      ∃ t : Transcript, (acquire w cache vid lang now).1 = Except.ok t ∧
        t.source = Source.AUTHORITATIVE ∧
        List.Chain' (fun a b => a.start ≤ b.start) t.segments ∧
        ∀ s ∈ t.segments, 0 ≤ s.start := by
  intro w cache vid lang now segs hauth hcache
  refine ⟨⟨vid, lang, normalizeSegments segs, Source.AUTHORITATIVE, now⟩,
    ?_, rfl, ?_, ?_⟩
  · simp only [acquire, hcache, computeTranscript, hauth]
  · exact monotonize_chain 0 _
  · intro s hs
    exact monotonize_start_ge 0 _ s hs

/-- Witness for C6: concrete acquisition with available captions. -/
theorem c6_authoritative_witness :
    ∃ t : Transcript,
      (acquire wAuth [] "abc12345678".data "en".data 5).1 = Except.ok t ∧
      t.source = Source.AUTHORITATIVE ∧
      List.Chain' (fun a b => a.start ≤ b.start) t.segments ∧
      ∀ s ∈ t.segments, 0 ≤ s.start :=
  c6_authoritative_normalized wAuth [] "abc12345678".data "en".data 5
    [⟨0, 2, "hello world".data⟩] rfl rfl

/-! ## Single-flight coalescing (spec §4.1 steps 2-5, §4.3, §5)

Concurrency is modelled as an arbitrary interleaving of atomic caller
arrivals followed by the completion of the in-flight computation; "N
concurrent calls" are N arrivals that all precede the completion. -/

/-- Modelled from the spec: the single-flight state for one cache key
(§4.3, §9) — the cached Transcript, the in-flight marker with the callers
attached to it, and the number of compute-function invocations so far. -/
structure SFState where
  cached : Option Transcript
  inflight : Bool
  waiters : List Nat
  invocations : Nat
deriving DecidableEq, Repr

/-- Modelled from the spec: a caller arriving at `getOrCompute` (§4.1
steps 1-3, atomic per §5): a cache hit is served immediately; an existing
in-flight marker makes the caller attach as a waiter; otherwise the
caller claims the marker, which invokes the compute function once. -/
def sfArrive (st : SFState) (i : Nat) : SFState :=
  match st.cached with
  | some _ => st
  | none =>
    if st.inflight then { st with waiters := st.waiters ++ [i] }
    else ⟨none, true, [i], st.invocations + 1⟩

/-- Modelled from the spec: completion of the in-flight computation (§4.1
steps 4-5): a success populates the cache, a failure does not (no
negative caching); either way the marker is cleared and every attached
caller receives the same result (value or error). -/
def sfComplete (st : SFState) (r : Except AcqError Transcript) :
    SFState × List (Nat × Except AcqError Transcript) :=
  ({ cached := match r with
      | Except.ok t => some t
      | Except.error _ => st.cached,
     inflight := false, waiters := [], invocations := st.invocations },
   st.waiters.map (fun i => (i, r)))

/-- Initial single-flight state for an uncached key. -/
def sfInit : SFState := ⟨none, false, [], 0⟩

lemma sfArrive_inflight (w : List Nat) (k : Nat) :
    ∀ ids : List Nat,
      List.foldl sfArrive ⟨none, true, w, k⟩ ids = ⟨none, true, w ++ ids, k⟩ := by
  intro ids
  induction ids generalizing w with
  | nil => simp
  | cons i rest ih =>
    rw [List.foldl_cons]
    have harr : sfArrive ⟨none, true, w, k⟩ i = ⟨none, true, w ++ [i], k⟩ := by
      simp [sfArrive]
    rw [harr, ih (w ++ [i])]
    simp

/-- C7: N concurrent `getOrCompute` callers for the same uncached key
(all arriving before the computation completes) trigger exactly one
invocation of the compute function, and all N receive the identical
result — the same Transcript or the same error. -/
theorem c7_single_flight :
    ∀ (ids : List Nat) (r : Except AcqError Transcript),
      ids ≠ [] →
      (List.foldl sfArrive sfInit ids).invocations = 1 ∧
      (List.foldl sfArrive sfInit ids).waiters = ids ∧
      (sfComplete (List.foldl sfArrive sfInit ids) r).2 =
        ids.map (fun i => (i, r)) := by
  intro ids r hne
  cases ids with
  | nil => exact absurd rfl hne
  | cons i rest =>
    rw [List.foldl_cons]
    have h1 : sfArrive sfInit i = ⟨none, true, [i], 1⟩ := by
      simp [sfArrive, sfInit]
    rw [h1, sfArrive_inflight [i] 1 rest]
    exact ⟨rfl, by simp, by simp [sfComplete]⟩

/-- Witness for C7: three concurrent callers, one invocation, identical
results. -/
theorem c7_single_flight_witness :
    (List.foldl sfArrive sfInit [1, 2, 3]).invocations = 1 ∧
    (List.foldl sfArrive sfInit [1, 2, 3]).waiters = [1, 2, 3] ∧
    (sfComplete (List.foldl sfArrive sfInit [1, 2, 3])
        (Except.error AcqError.FALLBACK_UNAVAILABLE)).2 =
      [1, 2, 3].map (fun i => (i, Except.error AcqError.FALLBACK_UNAVAILABLE)) :=
  c7_single_flight [1, 2, 3] (Except.error AcqError.FALLBACK_UNAVAILABLE)
    (by decide)
